import Mathlib

/-!
Verification of the FCD comic downloader against its specification.

The development shallowly embeds the code of
`src/app/automations/comic_issue_automation.py` and `src/app/downloader.py`:

* the URL-reconciliation script evaluated in `extract_image_urls`
  (the merge loop over `domUrls`/`jsUrls` and the dedup loop) becomes the
  pure list functions `mergeUrls` and `dedupUrls`;
* the retrying concurrent fetcher `download_image_urls` becomes a pure
  function over an abstract network environment assigning an outcome to
  every (index, attempt) pair — the semaphore only bounds concurrency and
  does not influence the collected results, which Python sorts by index;
* `create_cbz`, `_sanitize_filename`, `_sanitize_title` become pure
  functions, with `zipfile` and `pathlib` effects modelled by the returned
  archive value (`CbzResult`) and a path record (`LocalPath`);
* the control flow of `Comic_Issue_Automation.run`,
  `Comic_Downloader.process_issue` and `Comic_Downloader.download`
  (try/except/finally, `asyncio.gather(..., return_exceptions=True)`)
  is embedded with `Except`, keeping the exact position of every statement
  relative to the `try` blocks.
-/

namespace FCD

/-! ## URL Extractor: the merge loop of `extract_image_urls` (JS lines 172-188)

A DOM slot (`domUrls[i]`) is `none` for the `null` pushed at placeholder
images, `some s` for an `src` string.  The loop tests JS truthiness
(`if (domUrls[i])`), under which both `null` and the empty string are
falsy; `Option.getD d ""` maps both to `""`. -/

/-- Merge loop of `extract_image_urls`: walk `domUrls`; a truthy slot is
emitted; at a falsy slot the next unconsumed `jsUrls` entry is emitted if
one remains (`jsIndex < jsUrls.length`); the trailing `while` appends all
remaining `jsUrls` entries once `domUrls` is exhausted. -/
def mergeUrls : List (Option String) → List String → List String
  | [], jsUrls => jsUrls
  | d :: rest, jsUrls =>
    if d.getD "" ≠ "" then
      d.getD "" :: mergeUrls rest jsUrls
    else
      match jsUrls with
      | [] => mergeUrls rest []
      | j :: js => j :: mergeUrls rest js

/-- Modelled from the spec wording of the reconciliation rule, for
comparison with `mergeUrls`: "walk source A positions; wherever resolved,
emit that URL; wherever a gap exists, consume the next unconsumed entry
from source B, in B's order. After exhausting source A's positions, append
any remaining unconsumed entries from source B, in order."  A source-A
position is either resolved (`some url`) or a gap (`none`). -/
def reconcileSpec : List (Option String) → List String → List String
  | [], b => b
  | some u :: a, b => u :: reconcileSpec a b
  | none :: a, [] => reconcileSpec a []
  | none :: a, x :: b => x :: reconcileSpec a b

/-! ## URL Extractor: the dedup loop of `extract_image_urls` (JS lines 190-198) -/

/-- Dedup loop state machine: `seen` is the JS `Set`, the output is
`finalUrls` in push order.  A url is kept when it is truthy and not yet
seen. -/
def dedupGo (seen : List String) : List String → List String
  | [] => []
  | url :: rest =>
    if url ≠ "" ∧ url ∉ seen then
      url :: dedupGo (url :: seen) rest
    else
      dedupGo seen rest

/-- The dedup pass of `extract_image_urls`, started with an empty `Set`. -/
def dedupUrls (urls : List String) : List String := dedupGo [] urls

/-- The pure content of `extract_image_urls` after the page has been read:
merge the DOM slots with the decoded JS array, then dedup. -/
def extract_image_urls (domUrls : List (Option String)) (jsUrls : List String) :
    List String :=
  dedupUrls (mergeUrls domUrls jsUrls)

/-! ## Asset Fetcher: `download_image_urls`

The network is abstracted as an environment assigning to each
(page index, attempt number) the outcome of the corresponding HTTP GET:
either success with the response's content type, or any of the failures
the source's `except Exception` catches (non-success status, transport
error, timeout).  The semaphore bounds concurrency only; results are
collected from `asyncio.gather`, which returns them in task order, and
then sorted by index. -/

/-- Outcome of one HTTP GET attempt for one URL. -/
inductive AttemptResult where
  | success (contentType : String)
  | failure
deriving DecidableEq, Repr

/-- Substring test, modelling Python's `'jpeg' in content_type`. -/
def strContains (s pat : String) : Bool :=
  (List.range (s.toList.length + 1)).any
    (fun i => ((s.toList.drop i).take pat.toList.length) == pat.toList)

/-- Extension inference from the declared content type
(`download_image`, lines 239-248): jpeg/jpg → .jpg, png → .png,
gif → .gif, anything else defaults to .jpg. -/
def extFromContentType (ct : String) : String :=
  if strContains ct "jpeg" || strContains ct "jpg" then ".jpg"
  else if strContains ct "png" then ".png"
  else if strContains ct "gif" then ".gif"
  else ".jpg"

/-- Little-endian decimal digits of `n`, computed with explicit fuel so
that the recursion is structural (`digitsLE n n` is the digit list of
`n > 0`). -/
def digitsLE : Nat → Nat → List Nat
  | 0, _ => []
  | _ + 1, 0 => []
  | fuel + 1, n + 1 => ((n + 1) % 10) :: digitsLE fuel ((n + 1) / 10)

/-- Decimal rendering of a natural number (digit characters, most
significant first), modelling Python's `d` format. -/
def decRepr (n : Nat) : String :=
  if n = 0 then "0"
  else String.mk (((digitsLE n n).map Nat.digitChar).reverse)

/-- Zero padding to width 3, modelling Python's `{index:03d}`. -/
def zeroPad3 (n : Nat) : String :=
  let s := decRepr n
  if s.length < 3 then String.mk (List.replicate (3 - s.length) '0') ++ s else s

/-- Decimal decoding of a digit-character list; left inverse of
`zeroPad3` used to prove padded names injective. -/
def decodeDigits (cs : List Char) : Nat :=
  cs.foldl (fun acc c => 10 * acc + (c.toNat - 48)) 0

/-- A local file path: its textual form and its extension.  Python's
`pathlib.Path` is an external library; its `suffix` accessor is modelled
as a field, which the fetcher fills with the inferred extension. -/
structure LocalPath where
  path : String
  suffix : String
deriving DecidableEq, Repr

/-- The retry loop of `download_image` (`for attempt in range(max_retries)`):
return the first successful attempt's content type; `none` after the fuel
(remaining attempts) is exhausted. -/
def attemptLoop (attempts : Nat → AttemptResult) : Nat → Nat → Option String
  | _, 0 => none
  | attempt, fuel + 1 =>
    match attempts attempt with
    | .success ct => some ct
    | .failure => attemptLoop attempts (attempt + 1) fuel

/-- The `download_image` worker: up to `max_retries = 3` attempts; on
success the content is written to
`images/page_{index:03d}{ext}` and `(index, file_path)` is returned; after
exhausting attempts the worker returns `None`.  The URL argument is kept
from the source signature; the network's behaviour for the GET on the URL
at this index is what `env` assigns to the index. -/
def download_image (env : Nat → Nat → AttemptResult) (image_url : String)
    (image_index : Nat) : Option (Nat × LocalPath) :=
  match attemptLoop (env image_index) 0 3 with
  | some ct =>
    some (image_index,
      { path := "images/page_" ++ zeroPad3 image_index ++ extFromContentType ct,
        suffix := extFromContentType ct })
  | none => none

/-- `download_image_urls`: empty input short-circuits to `[]`; otherwise
one task per `(i, url)` of `enumerate(urls)`, gathered in task order, the
failed (`None`) results filtered out, and the survivors sorted by index. -/
def download_image_urls (env : Nat → Nat → AttemptResult) (urls : List String) :
    List (Nat × LocalPath) :=
  if urls.isEmpty then []
  else
    let results := urls.enum.map (fun p => download_image env p.2 p.1)
    let downloaded_files := results.filterMap id
    List.insertionSort (fun a b => a.1 ≤ b.1) downloaded_files

/-! ## Filename sanitization (`_sanitize_filename`, cap 200, and
`_sanitize_title`, cap 100) -/

/-- The characters of the class `[<>:"/\\|?*]` replaced by `_`. -/
def isInvalidChar (c : Char) : Bool :=
  c = '<' || c = '>' || c = ':' || c = '"' || c = '/' || c = '\\' ||
    c = '|' || c = '?' || c = '*'

/-- The characters removed by `strip('. ')`. -/
def isStripChar (c : Char) : Bool :=
  c = '.' || c = ' '

/-- Step 1 of both sanitizers: `re.sub(r'[<>:"/\\|?*]', '_', s)`. -/
def replaceInvalid (s : String) : String :=
  String.mk (s.toList.map (fun c => if isInvalidChar c then '_' else c))

/-- Step 2 of both sanitizers: `s.strip('. ')` — remove leading and
trailing dots and spaces. -/
def pyStrip (s : String) : String :=
  String.mk (((s.toList.dropWhile isStripChar).reverse.dropWhile isStripChar).reverse)

/-- `_sanitize_filename` of `Comic_Issue_Automation`: replace invalid
characters, strip dots/spaces, then truncate to 200 characters. -/
def sanitize_filename (filename : String) : String :=
  let f := pyStrip (replaceInvalid filename)
  if f.length > 200 then String.mk (f.toList.take 200) else f

/-- `_sanitize_title` of `Comic_Downloader`: same steps with cap 100. -/
def sanitize_title (title : String) : String :=
  let t := pyStrip (replaceInvalid title)
  if t.length > 100 then String.mk (t.toList.take 100) else t

/-! ## Archive Assembler: `create_cbz` -/

/-- The produced archive: its path and its entry names in emission
order.  The zipfile `with` block completes, writing every entry, before
`create_cbz` returns the path; an archive value exists only on the
success branch. -/
structure CbzResult where
  path : String
  entries : List String
deriving DecidableEq, Repr

/-- Archive entry name for one `(index, file)` pair:
`f"page_{index:03d}{img_file.suffix}"`. -/
def entryName (p : Nat × LocalPath) : String :=
  "page_" ++ zeroPad3 p.1 ++ p.2.suffix

/-- `create_cbz`: derive the output name from the sanitized title; raise
(`ValueError`, modelled as `Except.error`) on an empty input list before
any file is opened; otherwise write one entry per pair in input order and
return the archive path. -/
def create_cbz (title : String) (ordered_files : List (Nat × LocalPath)) :
    Except String CbzResult :=
  let safe_title := sanitize_filename title
  let output_file := safe_title ++ ".cbz"
  if ordered_files.isEmpty then
    Except.error "No images found to create CBZ"
  else
    Except.ok { path := output_file, entries := ordered_files.map entryName }

/-! ## Orchestrator: `Comic_Issue_Automation.run`,
`Comic_Downloader.process_issue`, `Comic_Downloader.download`

Every awaited external effect of one collection's pipeline is an entry of
`RunEnv`: `Except.error` models the call raising, carrying the message. -/

/-- External effects of one pipeline run, in the order `run` awaits
them. `extract` carries the page state read by the evaluate call: the DOM
slot list and the decoded JS url list. -/
structure RunEnv where
  new_page : Except String Unit
  open_issue : Except String Unit
  extract : Except String (List (Option String) × List String)
  attempts : Nat → Nat → AttemptResult
  zip_io : Except String Unit
  cleanup : Except String Unit
  page_close : Except String Unit

/-- The body of `run`'s `try` block (lines 329-362): open the issue,
extract the URLs, download them, return `None` when nothing downloaded,
create the archive, clean up, return the archive path.  Any step raising
aborts the body with that exception. -/
def runBody (title : String) (env : RunEnv) : Except String (Option CbzResult) :=
  match env.open_issue with
  | .error e => .error e
  | .ok _ =>
    match env.extract with
    | .error e => .error e
    | .ok st =>
      let ordered_files :=
        download_image_urls env.attempts (extract_image_urls st.1 st.2)
      if ordered_files.isEmpty then .ok none
      else
        match env.zip_io with
        | .error e => .error e
        | .ok _ =>
          match create_cbz title ordered_files with
          | .error e => .error e
          | .ok cbz =>
            match env.cleanup with
            | .error e => .error e
            | .ok _ => .ok (some cbz)

/-- `run` as observed through its `try`/`except`: any exception raised
inside the `try` block is caught and turned into a `None` return. -/
def run (title : String) (env : RunEnv) : Option CbzResult :=
  match runBody title env with
  | .ok v => v
  | .error _ => none

/-- `run` at its public interface, including the statements outside the
`try`: `new_page` (line 326) runs before the `try`, so its exception
propagates; the `finally` closes the page, and an exception there replaces
the return value. -/
def run_full (title : String) (env : RunEnv) : Except String (Option CbzResult) :=
  match env.new_page with
  | .error e => .error e
  | .ok _ =>
    let result : Except String (Option CbzResult) :=
      match runBody title env with
      | .ok v => .ok v
      | .error _ => .ok none
    match env.page_close with
    | .error e => .error e
    | .ok _ => result

/-- `process_issue`: directory creation and the automation constructor
(its `mkdir`) run before the `try` (lines 107-116), so their exceptions
propagate; the `try` wraps `automation.run()` and returns `None` on any
exception from it. -/
def process_issue (mkdirs : Except String Unit) (title : String) (env : RunEnv) :
    Except String (Option CbzResult) :=
  match mkdirs with
  | .error e => .error e
  | .ok _ =>
    match run_full title env with
    | .ok v => .ok v
    | .error _ => .ok none

/-- One enumerated collection: its title and its pipeline effects. -/
structure IssueTask where
  title : String
  mkdirs : Except String Unit
  env : RunEnv

/-- What `download` does after enumerating the issues: `cbz_paths` is the
local variable receiving `asyncio.gather(*tasks, return_exceptions=True)`
(one entry per task, exceptions captured as values), and `returned` is the
value `download` hands back to its caller — the function body ends at the
gather, so it returns `None`. -/
structure DownloadRun where
  cbz_paths : List (Except String (Option CbzResult))
  returned : Option (List (Except String (Option CbzResult)))

/-- `download` (lines 125-186): early return when no issues were found;
otherwise gather one `process_issue` outcome per issue.  The gathered
list is bound to `cbz_paths` and dropped; `download` returns `None`. -/
def download (issues : List IssueTask) : DownloadRun :=
  if issues.isEmpty then { cbz_paths := [], returned := none }
  else
    { cbz_paths := issues.map (fun t => process_issue t.mkdirs t.title t.env),
      returned := none }

/-! ## Concrete inputs used by witnesses and counterexamples -/

/-- Network for the fetcher witness: the URL at index 0 fails twice and
succeeds on the third attempt; every other request fails. -/
def envW : Nat → Nat → AttemptResult := fun i t =>
  if i = 0 ∧ t = 2 then .success "image/png" else .failure

/-- URL list for the fetcher witness. -/
def urlsW : List String := ["http://a/0", "http://b/1"]

/-- A network where every GET succeeds with a jpeg content type. -/
def attemptsOk : Nat → Nat → AttemptResult := fun _ _ => .success "image/jpeg"

/-- A pipeline environment in which every step succeeds and one image
URL resolves. -/
def envOk : RunEnv :=
  { new_page := .ok (), open_issue := .ok (),
    extract := .ok ([some "http://img/1"], []),
    attempts := attemptsOk, zip_io := .ok (),
    cleanup := .ok (), page_close := .ok () }

/-- Same pipeline with only the cleanup step raising. -/
def envBadCleanup : RunEnv :=
  { envOk with cleanup := .error "rmtree failed" }

/-- Same pipeline with page creation raising (before the `try`). -/
def envBadNewPage : RunEnv :=
  { envOk with new_page := .error "browser crashed" }

/-- Five enumerated collections, the third of which raises during
extraction. -/
def tasksC4 : List IssueTask :=
  [ { title := "i1", mkdirs := .ok (), env := envOk },
    { title := "i2", mkdirs := .ok (), env := envOk },
    { title := "i3", mkdirs := .ok (),
      env := { envOk with extract := .error "ExtractionError" } },
    { title := "i4", mkdirs := .ok (), env := envOk },
    { title := "i5", mkdirs := .ok (), env := envOk } ]

/-- A title whose sanitized form is truncated by the 200-character cap:
199 letters, a dot, then a letter. -/
def badTitle : String := String.mk (List.replicate 199 'a' ++ ['.', 'b'])

/-- Sparse fetch successes at indices 0, 2 and 5 for the assembler
witness. -/
def sparseFiles : List (Nat × LocalPath) :=
  [ (0, { path := "images/page_000.jpg", suffix := ".jpg" }),
    (2, { path := "images/page_002.jpg", suffix := ".jpg" }),
    (5, { path := "images/page_005.jpg", suffix := ".jpg" }) ]

/-! ### Lemmas about the merge -/

theorem mergeUrls_eq_reconcileSpec (a : List (Option String)) (b : List String)
    (h : ∀ s ∈ a, s ≠ some "") : mergeUrls a b = reconcileSpec a b := by
  induction a generalizing b with
  | nil => rfl
  | cons d rest ih =>
    have hrest : ∀ s ∈ rest, s ≠ some "" := fun s hs => h s (List.mem_cons_of_mem _ hs)
    cases d with
    | some u =>
      have hu : u ≠ "" := by
        intro hu
        exact h (some u) (List.mem_cons_self _ _) (by rw [hu])
      simp only [mergeUrls, reconcileSpec, Option.getD_some, if_pos hu]
      rw [ih b hrest]
    | none =>
      simp only [mergeUrls, Option.getD_none, ne_eq, not_true_eq_false, if_false]
      cases b with
      | nil => simpa only [reconcileSpec] using ih [] hrest
      | cons x xs =>
        simp only [reconcileSpec]
        rw [ih xs hrest]

theorem mergeUrls_length (a : List (Option String)) (b : List String) :
    (mergeUrls a b).length = a.countP (fun d => d.getD "" ≠ "") + b.length := by
  induction a generalizing b with
  | nil => simp [mergeUrls]
  | cons d rest ih =>
    by_cases hd : d.getD "" ≠ ""
    · rw [List.countP_cons]
      simp only [mergeUrls, if_pos hd, List.length_cons, ih]
      have hdec : (decide (d.getD "" ≠ "")) = true := decide_eq_true hd
      rw [hdec]
      simp only [if_true]
      omega
    · rw [List.countP_cons]
      have hdec : (decide (d.getD "" ≠ "")) = false := decide_eq_false hd
      rw [hdec]
      simp only [Bool.false_eq_true, if_false, Nat.add_zero]
      simp only [mergeUrls, if_neg hd]
      cases b with
      | nil => simp [ih]
      | cons x xs =>
        simp only [List.length_cons, ih]
        omega

/-! ### Lemmas about the dedup -/

theorem mem_dedupGo (l : List String) :
    ∀ (seen : List String) (u : String),
      u ∈ dedupGo seen l ↔ u ∈ l ∧ u ≠ "" ∧ u ∉ seen := by
  induction l with
  | nil => intro seen u; simp [dedupGo]
  | cons url rest ih =>
    intro seen u
    by_cases c : url ≠ "" ∧ url ∉ seen
    · simp only [dedupGo, if_pos c]
      constructor
      · intro h
        rcases List.mem_cons.mp h with rfl | h'
        · exact ⟨List.mem_cons_self _ _, c.1, c.2⟩
        · obtain ⟨hr, hne, hns⟩ := (ih (url :: seen) u).mp h'
          exact ⟨List.mem_cons_of_mem _ hr, hne,
            fun hs => hns (List.mem_cons_of_mem _ hs)⟩
      · rintro ⟨hmem, hne, hns⟩
        rcases List.mem_cons.mp hmem with rfl | hr
        · exact List.mem_cons_self _ _
        · by_cases hu : u = url
          · exact hu ▸ List.mem_cons_self _ _
          · refine List.mem_cons_of_mem _ ((ih (url :: seen) u).mpr ⟨hr, hne, ?_⟩)
            intro hmem'
            rcases List.mem_cons.mp hmem' with h | h
            · exact hu h
            · exact hns h
    · simp only [dedupGo, if_neg c]
      rw [ih seen u]
      constructor
      · rintro ⟨hr, hne, hns⟩
        exact ⟨List.mem_cons_of_mem _ hr, hne, hns⟩
      · rintro ⟨hmem, hne, hns⟩
        rcases List.mem_cons.mp hmem with rfl | hr
        · exact absurd ⟨hne, hns⟩ c
        · exact ⟨hr, hne, hns⟩

theorem nodup_dedupGo (l : List String) :
    ∀ seen : List String, (dedupGo seen l).Nodup := by
  induction l with
  | nil => intro seen; simp [dedupGo]
  | cons url rest ih =>
    intro seen
    by_cases c : url ≠ "" ∧ url ∉ seen
    · simp only [dedupGo, if_pos c]
      refine List.Nodup.cons ?_ (ih (url :: seen))
      intro hmem
      have := (mem_dedupGo rest (url :: seen) url).mp hmem
      exact this.2.2 (List.mem_cons_self _ _)
    · simp only [dedupGo, if_neg c]
      exact ih seen

theorem dedupGo_sublist (l : List String) :
    ∀ seen : List String, List.Sublist (dedupGo seen l) l := by
  induction l with
  | nil => intro seen; simp [dedupGo]
  | cons url rest ih =>
    intro seen
    by_cases c : url ≠ "" ∧ url ∉ seen
    · simpa only [dedupGo, if_pos c] using (ih (url :: seen)).cons₂ url
    · simpa only [dedupGo, if_neg c] using (ih seen).cons url

theorem dedupGo_pairwise_indexOf (l : List String) :
    ∀ seen : List String,
      (dedupGo seen l).Pairwise (fun u v => l.indexOf u < l.indexOf v) := by
  induction l with
  | nil => intro seen; simp [dedupGo]
  | cons url rest ih =>
    intro seen
    by_cases c : url ≠ "" ∧ url ∉ seen
    · simp only [dedupGo, if_pos c]
      refine List.Pairwise.cons ?_ ?_
      · intro v hv
        have hvmem := (mem_dedupGo rest (url :: seen) v).mp hv
        have hvne : v ≠ url := fun h => hvmem.2.2 (h ▸ List.mem_cons_self _ _)
        rw [List.indexOf_cons_self, List.indexOf_cons_ne _ (fun h => hvne h.symm)]
        exact Nat.succ_pos _
      · refine List.Pairwise.imp_of_mem ?_ (ih (url :: seen))
        intro u v hu hv huv
        have hune : u ≠ url :=
          fun h => ((mem_dedupGo rest (url :: seen) u).mp hu).2.2 (h ▸ List.mem_cons_self _ _)
        have hvne : v ≠ url :=
          fun h => ((mem_dedupGo rest (url :: seen) v).mp hv).2.2 (h ▸ List.mem_cons_self _ _)
        rw [List.indexOf_cons_ne _ (fun h => hune h.symm),
          List.indexOf_cons_ne _ (fun h => hvne h.symm)]
        exact Nat.succ_lt_succ huv
    · simp only [dedupGo, if_neg c]
      refine List.Pairwise.imp_of_mem ?_ (ih seen)
      intro u v hu hv huv
      have hu' := (mem_dedupGo rest seen u).mp hu
      have hv' := (mem_dedupGo rest seen v).mp hv
      have hune : u ≠ url := by
        intro h
        apply c
        exact ⟨h ▸ hu'.2.1, h ▸ hu'.2.2⟩
      have hvne : v ≠ url := by
        intro h
        apply c
        exact ⟨h ▸ hv'.2.1, h ▸ hv'.2.2⟩
      rw [List.indexOf_cons_ne _ (fun h => hune h.symm),
        List.indexOf_cons_ne _ (fun h => hvne h.symm)]
      exact Nat.succ_lt_succ huv

theorem enum_map_fst_eq_range {α : Type} (l : List α) :
    l.enum.map Prod.fst = List.range l.length := by
  rw [List.enum, List.enumFrom_map_fst, List.range_eq_range']

/-! ## Claim theorems for the Extractor -/

/-- C1: the merge loop of `extract_image_urls` is exactly the spec's
reconciliation rule — walk source A (DOM) positions in order, emit every
resolved URL, consume the next unconsumed source-B (decoded JS array)
entry at every gap, and append the remaining source-B entries once
source A is exhausted; in particular A = [A, gap, gap], B = [B, C] merges
to [A, B, C], and fully resolved A = [A, B] with B = [C] merges to
[A, B, C].  The hypothesis states that source-A slots are either genuine
resolved URLs or gaps (the DOM read in the source pushes either a
non-empty `src` or `null`). -/
theorem c1_reconciliation (a : List (Option String)) (b : List String)
    (h : ∀ s ∈ a, s ≠ some "") :
    mergeUrls a b = reconcileSpec a b ∧
      mergeUrls [some "A", none, none] ["B", "C"] = ["A", "B", "C"] ∧
      mergeUrls [some "A", some "B"] ["C"] = ["A", "B", "C"] :=
  ⟨mergeUrls_eq_reconcileSpec a b h, by decide, by decide⟩

/-- Witness for C1 at concrete inputs: the hypothesis holds for the
slot list [some "A", none, none] and the conclusion is obtained from
`c1_reconciliation` itself. -/
theorem c1_reconciliation_witness :
    mergeUrls [some "A", none, none] ["B", "C"]
        = reconcileSpec [some "A", none, none] ["B", "C"] ∧
      mergeUrls [some "A", none, none] ["B", "C"] = ["A", "B", "C"] ∧
      mergeUrls [some "A", some "B"] ["C"] = ["A", "B", "C"] :=
  c1_reconciliation [some "A", none, none] ["B", "C"] (by decide)

/-- C2: for every merged input sequence, the dedup pass of
`extract_image_urls` produces a duplicate-free list, drops null/empty
entries, keeps exactly the non-empty URLs of the merge, preserves
first-occurrence order (the output is a sublist of the merge whose
elements are strictly ordered by their first occurrence position), and
the positional renumbering 0..k-1 (the `enumerate` of
`download_image_urls`, which is the final index assignment) numbers the
survivors by position. -/
theorem c2_dedup_properties (domUrls : List (Option String)) (jsUrls : List String) :
    (extract_image_urls domUrls jsUrls).Nodup ∧
      "" ∉ extract_image_urls domUrls jsUrls ∧
      (∀ u, u ∈ extract_image_urls domUrls jsUrls ↔
        u ∈ mergeUrls domUrls jsUrls ∧ u ≠ "") ∧
      List.Sublist (extract_image_urls domUrls jsUrls) (mergeUrls domUrls jsUrls) ∧
      (extract_image_urls domUrls jsUrls).Pairwise
        (fun u v => (mergeUrls domUrls jsUrls).indexOf u
          < (mergeUrls domUrls jsUrls).indexOf v) ∧
      (extract_image_urls domUrls jsUrls).enum.map Prod.fst
        = List.range (extract_image_urls domUrls jsUrls).length := by
  have hmem : ∀ u, u ∈ extract_image_urls domUrls jsUrls ↔
      u ∈ mergeUrls domUrls jsUrls ∧ u ≠ "" := by
    intro u
    rw [extract_image_urls, dedupUrls, mem_dedupGo]
    simp
  refine ⟨nodup_dedupGo _ _, ?_, hmem, dedupGo_sublist _ _, dedupGo_pairwise_indexOf _ _,
    enum_map_fst_eq_range _⟩
  intro hmem'
  exact ((hmem "").mp hmem').2 rfl

/-- C9: the merged (pre-dedup) sequence has length equal to the number of
resolved (truthy) source-A entries plus the number of source-B entries;
a gap for which no source-B entry remains contributes nothing, as in the
concrete case A = [A, gap] with B = [] merging to just [A]. -/
theorem c9_merge_length :
    (∀ (a : List (Option String)) (b : List String),
      (mergeUrls a b).length = a.countP (fun d => d.getD "" ≠ "") + b.length) ∧
      mergeUrls [some "A", none] [] = ["A"] :=
  ⟨mergeUrls_length, by decide⟩

/-! ### Lemmas about the fetcher -/

theorem attemptLoop_succ (a : Nat → AttemptResult) (attempt fuel : Nat) :
    attemptLoop a attempt (fuel + 1) =
      match a attempt with
      | .success ct => some ct
      | .failure => attemptLoop a (attempt + 1) fuel := rfl

theorem download_image_fst (env : Nat → Nat → AttemptResult) (u : String)
    (i : Nat) (x : Nat × LocalPath) (h : download_image env u i = some x) :
    x.1 = i := by
  unfold download_image at h
  cases hA : attemptLoop (env i) 0 3 with
  | none => rw [hA] at h; cases h
  | some ct =>
    rw [hA] at h
    rw [← Option.some.inj h]

theorem download_image_none (env : Nat → Nat → AttemptResult) (u : String)
    (i : Nat) (hf : ∀ t, t < 3 → env i t = .failure) :
    download_image env u i = none := by
  unfold download_image
  rw [attemptLoop_succ, hf 0 (by omega), attemptLoop_succ, hf 1 (by omega),
    attemptLoop_succ, hf 2 (by omega)]
  rfl

theorem download_image_char (env : Nat → Nat → AttemptResult) (url : String)
    (i : Nat) (x : Nat × LocalPath) :
    download_image env url i = some x ↔
      ∃ t, t < 3 ∧ (∃ ct, env i t = .success ct ∧
          x = (i, { path := "images/page_" ++ zeroPad3 i ++ extFromContentType ct,
                    suffix := extFromContentType ct })) ∧
        ∀ r, r < t → env i r = .failure := by
  unfold download_image
  rw [attemptLoop_succ]
  cases h0 : env i 0 with
  | success c0 =>
    constructor
    · intro hx
      exact ⟨0, by omega, ⟨c0, h0, (Option.some.inj hx).symm⟩,
        fun r hr => absurd hr (by omega)⟩
    · rintro ⟨t, ht, ⟨ct, hct, rfl⟩, hfail⟩
      rcases t with _ | _ | _ | t
      · rw [h0] at hct
        rw [(AttemptResult.success.inj hct : c0 = ct)]
      · exact absurd h0 (by rw [hfail 0 (by omega)]; intro h; cases h)
      · exact absurd h0 (by rw [hfail 0 (by omega)]; intro h; cases h)
      · exact absurd ht (by omega)
  | failure =>
    rw [attemptLoop_succ]
    cases h1 : env i 1 with
    | success c1 =>
      constructor
      · intro hx
        refine ⟨1, by omega, ⟨c1, h1, (Option.some.inj hx).symm⟩, fun r hr => ?_⟩
        rcases r with _ | r
        · exact h0
        · exact absurd hr (by omega)
      · rintro ⟨t, ht, ⟨ct, hct, rfl⟩, hfail⟩
        rcases t with _ | _ | _ | t
        · rw [h0] at hct; cases hct
        · rw [h1] at hct
          rw [(AttemptResult.success.inj hct : c1 = ct)]
        · exact absurd h1 (by rw [hfail 1 (by omega)]; intro h; cases h)
        · exact absurd ht (by omega)
    | failure =>
      rw [attemptLoop_succ]
      cases h2 : env i 2 with
      | success c2 =>
        constructor
        · intro hx
          refine ⟨2, by omega, ⟨c2, h2, (Option.some.inj hx).symm⟩, fun r hr => ?_⟩
          rcases r with _ | _ | r
          · exact h0
          · exact h1
          · exact absurd hr (by omega)
        · rintro ⟨t, ht, ⟨ct, hct, rfl⟩, hfail⟩
          rcases t with _ | _ | _ | t
          · rw [h0] at hct; cases hct
          · rw [h1] at hct; cases hct
          · rw [h2] at hct
            rw [(AttemptResult.success.inj hct : c2 = ct)]
          · exact absurd ht (by omega)
      | failure =>
        constructor
        · intro hx; cases hx
        · rintro ⟨t, ht, ⟨ct, hct, rfl⟩, hfail⟩
          rcases t with _ | _ | _ | t
          · rw [h0] at hct; cases hct
          · rw [h1] at hct; cases hct
          · rw [h2] at hct; cases hct
          · exact absurd ht (by omega)

theorem mem_enumFrom_iff {α : Type} (l : List α) :
    ∀ (k i : Nat) (u : α),
      (i, u) ∈ l.enumFrom k ↔ ∃ j, i = k + j ∧ l.get? j = some u := by
  induction l with
  | nil =>
    intro k i u
    simp [List.enumFrom]
  | cons x xs ih =>
    intro k i u
    simp only [List.enumFrom, List.mem_cons, Prod.mk.injEq, ih]
    constructor
    · rintro (⟨rfl, rfl⟩ | ⟨j, rfl, hj⟩)
      · exact ⟨0, by omega, rfl⟩
      · exact ⟨j + 1, by omega, by simpa using hj⟩
    · rintro ⟨j, rfl, hj⟩
      cases j with
      | zero =>
        left
        simp only [List.get?] at hj
        exact ⟨by omega, (Option.some.inj hj).symm⟩
      | succ j =>
        right
        exact ⟨j, by omega, by simpa using hj⟩

theorem mem_enum_iff {α : Type} (l : List α) (i : Nat) (u : α) :
    (i, u) ∈ l.enum ↔ l.get? i = some u := by
  rw [List.enum, mem_enumFrom_iff]
  constructor
  · rintro ⟨j, rfl, hj⟩
    simpa using hj
  · intro h
    exact ⟨i, by omega, h⟩

theorem enum_pairwise {α : Type} (l : List α) :
    l.enum.Pairwise (fun a b => a.1 < b.1) := by
  have h := List.pairwise_lt_range l.length
  rw [← enum_map_fst_eq_range l] at h
  exact List.pairwise_map.mp h

theorem downloaded_pairwise (env : Nat → Nat → AttemptResult) (urls : List String) :
    (urls.enum.filterMap (fun p => download_image env p.2 p.1)).Pairwise
      (fun a b => a.1 < b.1) := by
  rw [List.pairwise_filterMap]
  refine List.Pairwise.imp_of_mem ?_ (enum_pairwise urls)
  intro p q _ _ hpq x hx y hy
  rw [download_image_fst env p.2 p.1 x (Option.mem_def.mp hx),
    download_image_fst env q.2 q.1 y (Option.mem_def.mp hy)]
  exact hpq

theorem download_image_urls_eq (env : Nat → Nat → AttemptResult) (urls : List String) :
    download_image_urls env urls
      = urls.enum.filterMap (fun p => download_image env p.2 p.1) := by
  unfold download_image_urls
  by_cases h : urls.isEmpty
  · rw [if_pos h]
    obtain rfl := List.isEmpty_iff.mp h
    rfl
  · rw [if_neg h]
    have hmap : (urls.enum.map (fun p => download_image env p.2 p.1)).filterMap id
        = urls.enum.filterMap (fun p => download_image env p.2 p.1) := by
      rw [List.filterMap_map]
      rfl
    show List.insertionSort (fun a b => a.1 ≤ b.1)
        ((urls.enum.map (fun p => download_image env p.2 p.1)).filterMap id)
      = urls.enum.filterMap (fun p => download_image env p.2 p.1)
    rw [hmap]
    exact List.Sorted.insertionSort_eq
      ((downloaded_pairwise env urls).imp (fun h => Nat.le_of_lt h))

theorem download_mem_iff (env : Nat → Nat → AttemptResult) (urls : List String)
    (i : Nat) (p : LocalPath) :
    (i, p) ∈ download_image_urls env urls ↔
      ∃ url, urls.get? i = some url ∧ download_image env url i = some (i, p) := by
  rw [download_image_urls_eq, List.mem_filterMap]
  constructor
  · rintro ⟨⟨j, url⟩, hmem, hdl⟩
    have : (j, url).1 = i := by
      have := download_image_fst env url j (i, p) hdl
      simpa using this.symm
    simp only at this
    subst this
    exact ⟨url, (mem_enum_iff urls _ url).mp hmem, hdl⟩
  · rintro ⟨url, hget, hdl⟩
    exact ⟨(i, url), (mem_enum_iff urls i url).mpr hget, hdl⟩

/-- C3: the fetcher returns exactly the subset of `(index, localPath)`
pairs whose downloads succeeded within `max_retries = 3` attempts, sorted
strictly ascending by index; a URL failing all three attempts is absent
while the others keep their original indices; a URL failing twice and
succeeding on the third attempt is present at its index; a batch with
zero successes yields `[]` rather than an exception (the function always
returns a list). -/
theorem c3_fetcher (env : Nat → Nat → AttemptResult) (urls : List String) :
    (download_image_urls env urls).Pairwise (fun a b => a.1 < b.1) ∧
      (∀ i p, (i, p) ∈ download_image_urls env urls ↔
        ∃ url, urls.get? i = some url ∧ download_image env url i = some (i, p)) ∧
      (∀ url i x, download_image env url i = some x ↔
        ∃ t, t < 3 ∧ (∃ ct, env i t = .success ct ∧
            x = (i, { path := "images/page_" ++ zeroPad3 i ++ extFromContentType ct,
                      suffix := extFromContentType ct })) ∧
          ∀ r, r < t → env i r = .failure) ∧
      (∀ i, (∀ t, t < 3 → env i t = .failure) →
        ∀ p, (i, p) ∉ download_image_urls env urls) ∧
      (∀ i ct, i < urls.length → env i 0 = .failure → env i 1 = .failure →
        env i 2 = .success ct → ∃ p, (i, p) ∈ download_image_urls env urls) ∧
      ((∀ i t, env i t = .failure) → download_image_urls env urls = []) := by
  refine ⟨?_, download_mem_iff env urls, download_image_char env, ?_, ?_, ?_⟩
  · rw [download_image_urls_eq]
    exact downloaded_pairwise env urls
  · intro i hf p hmem
    obtain ⟨url, _, hdl⟩ := (download_mem_iff env urls i p).mp hmem
    rw [download_image_none env url i hf] at hdl
    cases hdl
  · intro i ct hi h0 h1 h2
    have hurl : urls.get? i = some (urls.get ⟨i, hi⟩) := List.get?_eq_get hi
    have hdl : download_image env (urls.get ⟨i, hi⟩) i
        = some (i, { path := "images/page_" ++ zeroPad3 i ++ extFromContentType ct,
                     suffix := extFromContentType ct }) := by
      rw [download_image_char]
      refine ⟨2, by omega, ⟨ct, h2, rfl⟩, fun r hr => ?_⟩
      rcases r with _ | _ | r
      · exact h0
      · exact h1
      · exact absurd hr (by omega)
    exact ⟨_, (download_mem_iff env urls i _).mpr ⟨urls.get ⟨i, hi⟩, hurl, hdl⟩⟩
  · intro hall
    rw [download_image_urls_eq]
    rw [List.filterMap_eq_nil_iff]
    intro a _
    exact download_image_none env a.2 a.1 (fun t _ => hall a.1 t)

/-- Witness for C3 at the concrete network `envW` (index 0 fails twice
then succeeds, index 1 always fails): index 0 appears in the result and
index 1 is absent, by `c3_fetcher`. -/
theorem c3_fetcher_witness :
    (∃ p, (0, p) ∈ download_image_urls envW urlsW) ∧
      ∀ p, (1, p) ∉ download_image_urls envW urlsW := by
  have h := c3_fetcher envW urlsW
  refine ⟨h.2.2.2.2.1 0 "image/png" (by decide) (by decide) (by decide) (by decide), ?_⟩
  intro p
  refine h.2.2.2.1 1 ?_ p
  intro t _
  simp [envW]

/-! ### Decimal padding: decode round-trip and injectivity -/

theorem data_append (a b : String) : (a ++ b).data = a.data ++ b.data := rfl

theorem digitChar_toNat : ∀ d, d < 10 → (Nat.digitChar d).toNat = 48 + d := by decide

theorem foldl_decode_zeros (k : Nat) :
    List.foldl (fun acc c => 10 * acc + (c.toNat - 48)) 0 (List.replicate k '0') = 0 := by
  induction k with
  | zero => rfl
  | succ k ih =>
    rw [List.replicate_succ, List.foldl_cons]
    have h : (10 * 0 + ('0'.toNat - 48)) = 0 := by decide
    rw [h, ih]

theorem foldl_decode_digitsLE :
    ∀ (fuel n : Nat), n ≤ fuel → ∀ acc,
      List.foldl (fun acc c => 10 * acc + (c.toNat - 48)) acc
          (((digitsLE fuel n).map Nat.digitChar).reverse)
        = acc * 10 ^ (digitsLE fuel n).length + n := by
  intro fuel
  induction fuel with
  | zero =>
    intro n hn acc
    obtain rfl : n = 0 := Nat.le_zero.mp hn
    simp [digitsLE]
  | succ fuel ih =>
    intro n hn acc
    cases n with
    | zero => simp [digitsLE]
    | succ m =>
      have hdiv : (m + 1) / 10 ≤ fuel := by
        have := Nat.div_lt_self (Nat.succ_pos m) (by omega : 1 < 10)
        omega
      have hgen : ∀ X A Q R : Nat, 10 * Q + R = m + 1 →
          10 * (A * X + Q) + R = A * (X * 10) + (m + 1) := by
        intro X A Q R h
        rw [← h]
        ring
      simp only [digitsLE, List.map_cons, List.reverse_cons]
      rw [List.foldl_append, ih _ hdiv acc]
      simp only [List.foldl_cons, List.foldl_nil, List.length_cons]
      have hlt : (m + 1) % 10 < 10 := Nat.mod_lt _ (by omega)
      rw [digitChar_toNat _ hlt]
      have h48 : 48 + (m + 1) % 10 - 48 = (m + 1) % 10 := by omega
      rw [h48, pow_succ]
      exact hgen (10 ^ (digitsLE fuel ((m + 1) / 10)).length) acc
        ((m + 1) / 10) ((m + 1) % 10) (Nat.div_add_mod (m + 1) 10)

theorem decodeDigits_decRepr (n : Nat) : decodeDigits (decRepr n).data = n := by
  unfold decRepr
  by_cases h : n = 0
  · subst h
    decide
  · rw [if_neg h]
    show List.foldl (fun acc c => 10 * acc + (c.toNat - 48)) 0
        (((digitsLE n n).map Nat.digitChar).reverse) = n
    rw [foldl_decode_digitsLE n n (Nat.le_refl n) 0]
    simp

theorem decodeDigits_append_zeros (k : Nat) (cs : List Char) :
    decodeDigits (List.replicate k '0' ++ cs) = decodeDigits cs := by
  unfold decodeDigits
  rw [List.foldl_append, foldl_decode_zeros]

theorem decodeDigits_zeroPad3 (n : Nat) : decodeDigits (zeroPad3 n).data = n := by
  show decodeDigits
      (if (decRepr n).length < 3
        then String.mk (List.replicate (3 - (decRepr n).length) '0') ++ decRepr n
        else decRepr n).data = n
  by_cases h : (decRepr n).length < 3
  · rw [if_pos h]
    rw [data_append]
    show decodeDigits (List.replicate (3 - (decRepr n).length) '0' ++ (decRepr n).data) = n
    rw [decodeDigits_append_zeros, decodeDigits_decRepr]
  · rw [if_neg h]
    exact decodeDigits_decRepr n

theorem zeroPad3_injective (m n : Nat) (h : zeroPad3 m = zeroPad3 n) : m = n := by
  have hm := decodeDigits_zeroPad3 m
  rw [h, decodeDigits_zeroPad3] at hm
  exact hm.symm

theorem suffix_len4 (s : String) (h : s ∈ [".jpg", ".png", ".gif"]) :
    s.data.length = 4 := by
  simp only [List.mem_cons, List.not_mem_nil, or_false] at h
  rcases h with rfl | rfl | rfl <;> rfl

theorem entryName_index_eq (p q : Nat × LocalPath)
    (hp : p.2.suffix.data.length = 4) (hq : q.2.suffix.data.length = 4)
    (h : entryName p = entryName q) : p.1 = q.1 := by
  have hd := congrArg String.data h
  unfold entryName at hd
  simp only [data_append] at hd
  obtain ⟨h1, -⟩ := List.append_inj' hd (hp.trans hq.symm)
  have h2 := List.append_cancel_left h1
  exact zeroPad3_injective _ _ (String.ext h2)

/-! ### Claim theorems for the Assembler -/

/-- C5: on the fetcher's sorted, extension-carrying input, `create_cbz`
emits entries in exactly the input order — hence strictly ascending index
order — each named zero-padded original index plus the file's extension;
the indices are those of the input (not renumbered), and no two entries
share a name. -/
theorem c5_assembler (title : String) (files : List (Nat × LocalPath))
    (hne : files ≠ [])
    (hsorted : files.Pairwise (fun a b => a.1 < b.1))
    (hsfx : ∀ p ∈ files, p.2.suffix ∈ [".jpg", ".png", ".gif"]) :
    ∃ r, create_cbz title files = Except.ok r ∧
      r.entries = files.map entryName ∧
      r.entries.Nodup ∧
      (files.map Prod.fst).Pairwise (· < ·) := by
  refine ⟨⟨sanitize_filename title ++ ".cbz", files.map entryName⟩, ?_, rfl, ?_, ?_⟩
  · show (if files.isEmpty then _ else _) = _
    rw [if_neg (by simpa using hne)]
  · show (files.map entryName).Pairwise (· ≠ ·)
    rw [List.pairwise_map]
    refine List.Pairwise.imp_of_mem ?_ hsorted
    intro p q hpmem hqmem hlt heq
    exact Nat.ne_of_lt hlt
      (entryName_index_eq p q (suffix_len4 _ (hsfx p hpmem))
        (suffix_len4 _ (hsfx q hqmem)) heq)
  · exact List.pairwise_map.mpr hsorted

/-- Witness for C5 at the sparse success set with indices [0, 2, 5]: the
archive keeps exactly those indices in the entry names. -/
theorem c5_assembler_witness :
    (∃ r, create_cbz "Comic" sparseFiles = Except.ok r ∧
      r.entries = sparseFiles.map entryName ∧
      r.entries.Nodup ∧
      (sparseFiles.map Prod.fst).Pairwise (· < ·)) ∧
    sparseFiles.map entryName = ["page_000.jpg", "page_002.jpg", "page_005.jpg"] :=
  ⟨c5_assembler "Comic" sparseFiles (by decide)
      (by decide)
      (by decide),
    by decide⟩

/-- C6: `create_cbz` raises on an empty input list — no archive value is
produced — and on a non-empty input returns the archive path, with the
archive complete (one entry per input pair) at return. -/
theorem c6_assembler (title : String) (files : List (Nat × LocalPath)) :
    create_cbz title [] = Except.error "No images found to create CBZ" ∧
      (files ≠ [] → ∃ r, create_cbz title files = Except.ok r ∧
        r.path = sanitize_filename title ++ ".cbz" ∧
        r.entries.length = files.length) := by
  constructor
  · rfl
  · intro h
    refine ⟨⟨sanitize_filename title ++ ".cbz", files.map entryName⟩, ?_, rfl, by simp⟩
    show (if files.isEmpty then _ else _) = _
    rw [if_neg (by simpa using h)]

/-- Witness for C6: at a non-empty concrete input the archive is
returned with name derived from the sanitized title. -/
theorem c6_assembler_witness :
    create_cbz "My Comic: #1" [] = Except.error "No images found to create CBZ" ∧
      (∃ r, create_cbz "My Comic: #1" sparseFiles = Except.ok r ∧
        r.path = sanitize_filename "My Comic: #1" ++ ".cbz" ∧
        r.entries.length = sparseFiles.length) :=
  ⟨(c6_assembler "My Comic: #1" sparseFiles).1,
    (c6_assembler "My Comic: #1" sparseFiles).2 (by decide)⟩

/-! ### Lemmas about sanitization -/

theorem head?_dropWhile {α : Type} (p : α → Bool) (l : List α) (c : α)
    (h : (l.dropWhile p).head? = some c) : p c = false := by
  have hw := List.head?_dropWhile_not p l
  rw [h] at hw
  exact hw

theorem replaceInvalid_chars (s : String) :
    ∀ c ∈ (replaceInvalid s).data, isInvalidChar c = false := by
  intro c hc
  obtain ⟨a, -, rfl⟩ := List.mem_map.mp hc
  by_cases ha : isInvalidChar a = true
  · simp only [ha, if_true]
    decide
  · simp only [Bool.not_eq_true] at ha
    simp only [ha, Bool.false_eq_true, if_false]

theorem pyStrip_data (s : String) :
    (pyStrip s).data
      = ((s.data.dropWhile isStripChar).reverse.dropWhile isStripChar).reverse := rfl

theorem mem_pyStrip (s : String) (c : Char) (h : c ∈ (pyStrip s).data) :
    c ∈ s.data := by
  rw [pyStrip_data, List.mem_reverse] at h
  have h1 := List.dropWhile_subset _ h
  rw [List.mem_reverse] at h1
  exact List.dropWhile_subset _ h1

theorem rstrip_head {α : Type} (p : α → Bool) (A : List α) (c : α)
    (h : ((A.reverse.dropWhile p).reverse).head? = some c) : A.head? = some c := by
  have hsplit : (A.reverse.dropWhile p).reverse ++ (A.reverse.takeWhile p).reverse = A := by
    rw [← List.reverse_append, List.takeWhile_append_dropWhile, List.reverse_reverse]
  cases e : (A.reverse.dropWhile p).reverse with
  | nil => rw [e] at h; cases h
  | cons d t =>
    rw [e] at h hsplit
    rw [← hsplit, List.cons_append]
    simpa using h

theorem pyStrip_head (s : String) (c : Char)
    (h : (pyStrip s).data.head? = some c) : isStripChar c = false := by
  rw [pyStrip_data] at h
  exact head?_dropWhile _ _ _ (rstrip_head isStripChar (s.data.dropWhile isStripChar) c h)

theorem pyStrip_getLast (s : String) (c : Char)
    (h : (pyStrip s).data.getLast? = some c) : isStripChar c = false := by
  rw [pyStrip_data, List.getLast?_reverse] at h
  exact head?_dropWhile _ _ _ h

theorem head?_take {α : Type} (l : List α) (n : Nat) (c : α)
    (h : (l.take n).head? = some c) : l.head? = some c := by
  cases l with
  | nil => simp at h
  | cons x xs =>
    cases n with
    | zero => simp at h
    | succ n => simpa using h

theorem capped_data (s : String) (cap : Nat) :
    (if s.length > cap then String.mk (s.toList.take cap) else s).data
      = if s.length > cap then s.data.take cap else s.data := by
  by_cases h : s.length > cap
  · rw [if_pos h, if_pos h]
    rfl
  · rw [if_neg h, if_neg h]

theorem sanitize_filename_data (t : String) :
    (sanitize_filename t).data
      = if (pyStrip (replaceInvalid t)).length > 200
        then (pyStrip (replaceInvalid t)).data.take 200
        else (pyStrip (replaceInvalid t)).data :=
  capped_data (pyStrip (replaceInvalid t)) 200

theorem sanitize_title_data (t : String) :
    (sanitize_title t).data
      = if (pyStrip (replaceInvalid t)).length > 100
        then (pyStrip (replaceInvalid t)).data.take 100
        else (pyStrip (replaceInvalid t)).data :=
  capped_data (pyStrip (replaceInvalid t)) 100

theorem sanitize_core (t : String) (cap : Nat) (res : String)
    (hres : res.data = if (pyStrip (replaceInvalid t)).length > cap
      then (pyStrip (replaceInvalid t)).data.take cap
      else (pyStrip (replaceInvalid t)).data) :
    (∀ c ∈ res.data, isInvalidChar c = false) ∧
      res.length ≤ cap ∧
      (∀ c, res.data.head? = some c → isStripChar c = false) ∧
      ((pyStrip (replaceInvalid t)).length ≤ cap →
        ∀ c, res.data.getLast? = some c → isStripChar c = false) := by
  refine ⟨?_, ?_, ?_, ?_⟩
  · intro c hc
    rw [hres] at hc
    have hc' : c ∈ (pyStrip (replaceInvalid t)).data := by
      by_cases h : (pyStrip (replaceInvalid t)).length > cap
      · rw [if_pos h] at hc
        exact List.mem_of_mem_take hc
      · rw [if_neg h] at hc
        exact hc
    exact replaceInvalid_chars t c (mem_pyStrip _ c hc')
  · have hlen : res.length = res.data.length := rfl
    rw [hlen, hres]
    by_cases h : (pyStrip (replaceInvalid t)).length > cap
    · rw [if_pos h, List.length_take]
      omega
    · rw [if_neg h]
      have hlen2 : (pyStrip (replaceInvalid t)).data.length
          = (pyStrip (replaceInvalid t)).length := rfl
      omega
  · intro c hc
    rw [hres] at hc
    have h1 : (pyStrip (replaceInvalid t)).data.head? = some c := by
      by_cases h : (pyStrip (replaceInvalid t)).length > cap
      · rw [if_pos h] at hc
        exact head?_take _ _ _ hc
      · rw [if_neg h] at hc
        exact hc
    exact pyStrip_head _ c h1
  · intro hle c hc
    rw [hres, if_neg (by omega)] at hc
    exact pyStrip_getLast _ c hc

/-! ### Claim theorems for sanitization -/

/-- C8 (amended): for every title, both sanitizers output no invalid
path characters, respect their length caps (200 and 100), and never start
with a dot or space; the output also never ends with a dot or space
whenever the length cap does not truncate — a title whose stripped form
exceeds the cap can end with a dot or space after truncation (see the
counterexample). -/
theorem c8_sanitize (title : String) :
    ((∀ c ∈ (sanitize_filename title).data, isInvalidChar c = false) ∧
      (sanitize_filename title).length ≤ 200 ∧
      (∀ c, (sanitize_filename title).data.head? = some c → isStripChar c = false) ∧
      ((pyStrip (replaceInvalid title)).length ≤ 200 →
        ∀ c, (sanitize_filename title).data.getLast? = some c → isStripChar c = false)) ∧
    ((∀ c ∈ (sanitize_title title).data, isInvalidChar c = false) ∧
      (sanitize_title title).length ≤ 100 ∧
      (∀ c, (sanitize_title title).data.head? = some c → isStripChar c = false) ∧
      ((pyStrip (replaceInvalid title)).length ≤ 100 →
        ∀ c, (sanitize_title title).data.getLast? = some c → isStripChar c = false)) :=
  ⟨sanitize_core title 200 _ (sanitize_filename_data title),
    sanitize_core title 100 _ (sanitize_title_data title)⟩

set_option maxRecDepth 40000 in
/-- Counterexample for C8 as stated: a 201-character title (199 letters,
a dot, a letter) survives `strip('. ')` unchanged, and the 200-character
truncation then leaves a trailing dot, so the sanitized name ends with a
dot despite the claim that no trailing dots remain even under
truncation. -/
theorem c8_counterexample :
    (sanitize_filename badTitle).data.getLast? = some '.' ∧
      isStripChar '.' = true ∧
      (sanitize_filename badTitle).length = 200 := by
  refine ⟨?_, by decide, ?_⟩ <;> decide

/-- Witness for C8: at a concrete title below the cap, all four
guarantees are obtained from `c8_sanitize`, in particular the trailing
character is not a dot or space. -/
theorem c8_sanitize_witness :
    (sanitize_filename "My Comic: #1?").data.getLast? = some '_' ∧
      isStripChar '_' = false :=
  ⟨by decide, (c8_sanitize "My Comic: #1?").1.2.2.2 (by decide) '_' (by decide)⟩

/-! ### Lemmas and claim theorems for the Orchestrator -/

/-- C7 (amended): the cleanup call sits inside `run`'s `try` block, so a
cleanup failure is escalated into the generic exception handler and fails
the collection: when extraction, fetching and assembly all succeed, `run`
returns the archive path exactly when cleanup also succeeds, and returns
`None` when cleanup raises — even though the archive was already
created. -/
theorem c7_cleanup (title : String) (env : RunEnv)
    (st : List (Option String) × List String)
    (hopen : env.open_issue = Except.ok ())
    (hext : env.extract = Except.ok st)
    (hfiles : (download_image_urls env.attempts
      (extract_image_urls st.1 st.2)).isEmpty = false)
    (hzip : env.zip_io = Except.ok ()) :
    (∀ e, env.cleanup = Except.error e → run title env = none) ∧
      (env.cleanup = Except.ok () → ∃ r, run title env = some r) := by
  have hcbz : create_cbz title (download_image_urls env.attempts
        (extract_image_urls st.1 st.2))
      = Except.ok ⟨sanitize_filename title ++ ".cbz",
          (download_image_urls env.attempts
            (extract_image_urls st.1 st.2)).map entryName⟩ := by
    show (if (download_image_urls env.attempts
        (extract_image_urls st.1 st.2)).isEmpty then _ else _) = _
    rw [hfiles]
    simp only [Bool.false_eq_true, if_false]
  have hbody : ∀ res, env.cleanup = res →
      runBody title env =
        match res with
        | .error e => Except.error e
        | .ok _ => Except.ok (some ⟨sanitize_filename title ++ ".cbz",
            (download_image_urls env.attempts
              (extract_image_urls st.1 st.2)).map entryName⟩) := by
    intro res hres
    unfold runBody
    rw [hopen]
    dsimp only
    rw [hext]
    dsimp only
    rw [hfiles]
    simp only [Bool.false_eq_true, if_false]
    rw [hzip]
    dsimp only
    rw [hcbz]
    dsimp only
    rw [hres]
  constructor
  · intro e he
    unfold run
    rw [hbody (Except.error e) he]
  · intro hok
    refine ⟨⟨sanitize_filename title ++ ".cbz",
        (download_image_urls env.attempts
          (extract_image_urls st.1 st.2)).map entryName⟩, ?_⟩
    unfold run
    rw [hbody (Except.ok ()) hok]

/-- Counterexample for C7 as stated: with every step up to assembly
succeeding and only cleanup raising, `run` returns `None` (failure)
rather than the archive path; the same pipeline with cleanup succeeding
returns the path, and the archive had been assembled in both cases. -/
theorem c7_counterexample :
    envBadCleanup.cleanup = Except.error "rmtree failed" ∧
      create_cbz "Comic" (download_image_urls envBadCleanup.attempts
          (extract_image_urls [some "http://img/1"] []))
        = Except.ok ⟨"Comic.cbz", ["page_000.jpg"]⟩ ∧
      run "Comic" envBadCleanup = none ∧
      run "Comic" envOk = some ⟨"Comic.cbz", ["page_000.jpg"]⟩ :=
  ⟨rfl, rfl, rfl, rfl⟩

/-- Witness for C7 at the concrete environments: cleanup failing turns
the result into `None`, cleanup succeeding yields the path, via
`c7_cleanup`. -/
theorem c7_cleanup_witness :
    run "Comic" envBadCleanup = none ∧ ∃ r, run "Comic" envOk = some r :=
  ⟨(c7_cleanup "Comic" envBadCleanup ([some "http://img/1"], [])
      rfl rfl (by decide) rfl).1 "rmtree failed" rfl,
    (c7_cleanup "Comic" envOk ([some "http://img/1"], [])
      rfl rfl (by decide) rfl).2 rfl⟩

/-- C10 (amended): all exceptions raised inside the `try` blocks are
absorbed — `run` returns a plain value (path or `None`) whenever page
creation and page closing succeed, and `process_issue` returns a plain
value whenever its directory setup succeeds, absorbing even exceptions
that escape `run`.  What does propagate: `new_page` (before `run`'s
`try`) and `page_close` (its `finally`) from `run`, and directory
creation from `process_issue`. -/
theorem c10_totality (title : String) (env : RunEnv) (mk : Except String Unit)
    (hnp : env.new_page = Except.ok ())
    (hpc : env.page_close = Except.ok ()) :
    run_full title env = Except.ok (run title env) ∧
      (mk = Except.ok () → ∃ v, process_issue mk title env = Except.ok v) := by
  constructor
  · unfold run_full run
    rw [hnp]
    dsimp only
    rw [hpc]
    dsimp only
    cases hrb : runBody title env with
    | ok v => rfl
    | error e => rfl
  · intro hmk
    unfold process_issue
    rw [hmk]
    dsimp only
    cases hrf : run_full title env with
    | ok v => exact ⟨v, rfl⟩
    | error e => exact ⟨none, rfl⟩

/-- Counterexample for C10 as stated: `new_page` runs before `run`'s
`try`, so its exception propagates out of `run`; directory creation runs
before `process_issue`'s `try`, so its exception propagates out of
`process_issue`.  (`process_issue` does absorb the exception `run`
propagates.) -/
theorem c10_counterexample :
    run_full "Comic" envBadNewPage = Except.error "browser crashed" ∧
      process_issue (Except.error "mkdir failed") "Comic" envOk
        = Except.error "mkdir failed" ∧
      process_issue (Except.ok ()) "Comic" envBadNewPage = Except.ok none :=
  ⟨rfl, rfl, rfl⟩

/-- Witness for C10 at the all-succeeding environment, via
`c10_totality`. -/
theorem c10_totality_witness :
    run_full "Comic" envOk = Except.ok (run "Comic" envOk) ∧
      ∃ v, process_issue (Except.ok ()) "Comic" envOk = Except.ok v :=
  ⟨(c10_totality "Comic" envOk (Except.ok ()) rfl rfl).1,
    (c10_totality "Comic" envOk (Except.ok ()) rfl rfl).2 rfl⟩

/-- C4 (amended): the orchestrator isolates per-collection failures: the
gathered outcome list has exactly one entry per enumerated collection,
and entry `i` is the `process_issue` outcome of collection `i` alone — a
sibling's exception cannot change it (`gather` with
`return_exceptions=True` captures even propagated exceptions as values).
However `download` does not return the outcome set: the gathered list is
bound to a local and the method returns `None`. -/
theorem c4_orchestrator (issues : List IssueTask) :
    (download issues).cbz_paths.length = issues.length ∧
      (∀ i, (download issues).cbz_paths.get? i
        = (issues.get? i).map (fun t => process_issue t.mkdirs t.title t.env)) ∧
      (download issues).returned = none := by
  unfold download
  by_cases h : issues.isEmpty
  · obtain rfl := List.isEmpty_iff.mp h
    rw [if_pos h]
    exact ⟨rfl, fun i => rfl, rfl⟩
  · rw [if_neg h]
    exact ⟨List.length_map _ _, fun i => List.get?_map _ _ _, rfl⟩

/-- Counterexample for C4 as stated: five collections, the third raising
`ExtractionError`: all five outcomes are accumulated (the other four
complete independently), but `download` returns `None`, not the outcome
set. -/
theorem c4_counterexample :
    (download tasksC4).returned = none ∧
      (download tasksC4).cbz_paths.length = 5 ∧
      (download tasksC4).cbz_paths.get? 2 = some (Except.ok none) ∧
      (download tasksC4).cbz_paths.get? 0
        = some (Except.ok (some ⟨"i1.cbz", ["page_000.jpg"]⟩)) ∧
      (download tasksC4).cbz_paths.get? 4
        = some (Except.ok (some ⟨"i5.cbz", ["page_000.jpg"]⟩)) :=
  ⟨rfl, rfl, rfl, rfl, rfl⟩

end FCD
